import Mathlib

/-!
Verification of the sequence-identifier allocator in `app/utils/sequence.py`.

The module is shallowly embedded: the `id_sequences` table is a list of
key/row pairs, a database session is a store plus a log of executed
statements, and the two entry points `generate_sequence_id` and
`init_sequence` are translated statement by statement.  The random draw of
`random.randint(step_min, step_max)` and the rendered output of
`datetime.now().strftime(fmt)` are taken as parameters, so that theorems can
quantify over every possible draw and clock value.
-/

namespace SeqAlloc

/-- One row of the `id_sequences` table.  The Python code reads the columns
`current_value, step_min, step_max, prefix` and, on insertion, also writes
`description`.  The `prefix` column (a nullable string) is the field `pfx`. -/
structure SeqRow where
  current_value : Int
  step_min : Int
  step_max : Int
  pfx : Option String
  description : Option String
deriving DecidableEq, Repr

/-- The `id_sequences` table: rows keyed by `seq_key`. -/
abbrev Store := List (String × SeqRow)

/-- Errors surfaced by the allocator: `ValueError(f"Sequence '{key}' not
found")` on an unknown key, and the database's duplicate-key rejection of an
insert. -/
inductive SeqError where
  | notFound (key : String)
  | alreadyExists (key : String)
deriving DecidableEq, Repr

/-- One executed SQL statement, as issued through `db.execute` /
`db.commit` in the source. -/
inductive DbAction where
  | select (key : String)
  | selectLock (key : String)
  | update (key : String) (v : Int)
  | insert (key : String) (row : SeqRow)
  | commit
deriving DecidableEq, Repr

/-- A database session: current table contents plus the log of statements
executed so far. -/
structure Db where
  store : Store
  log : List DbAction
deriving DecidableEq

/-- Execute one statement: record it in the log and move to the new table
state it produces. -/
def Db.exec (db : Db) (a : DbAction) (s : Store) : Db :=
  { store := s, log := db.log ++ [a] }

/-- `SELECT ... WHERE seq_key = :key`: the first row whose key matches. -/
def lookupRow : Store → String → Option SeqRow
  | [], _ => none
  | (k, r) :: rest, key => if k = key then some r else lookupRow rest key

/-- `UPDATE id_sequences SET current_value = :new_value WHERE seq_key = :key`:
every row whose key matches gets the new `current_value`. -/
def updateValue : Store → String → Int → Store
  | [], _, _ => []
  | (k, r) :: rest, key, v =>
    if k = key then (k, { r with current_value := v }) :: updateValue rest key v
    else (k, r) :: updateValue rest key v

/-- `INSERT INTO id_sequences ...` under the table's unique key constraint:
rejected when a row with the key already exists. -/
def insertRow (s : Store) (key : String) (row : SeqRow) : Except SeqError Store :=
  if (lookupRow s key).isSome then .error (.alreadyExists key)
  else .ok (s ++ [(key, row)])

/-- `generate_sequence_id` returns `int | str`: the raw new value, or the
formatted string. -/
inductive SeqResult where
  | int (n : Int)
  | str (s : String)
deriving DecidableEq, Repr

instance {ε α : Type} [DecidableEq ε] [DecidableEq α] : DecidableEq (Except ε α) :=
  fun a b =>
    match a, b with
    | .ok x, .ok y => decidable_of_iff (x = y) (by simp)
    | .ok _, .error _ => .isFalse (by simp)
    | .error _, .ok _ => .isFalse (by simp)
    | .error x, .error y => decidable_of_iff (x = y) (by simp)

/-- Python truthiness of the nullable `prefix` column: `None` and the empty
string are falsy. -/
def truthyPfx : Option String → Bool
  | none => false
  | some s => s != ""

/-- Python `str.zfill(width)`: left-pad with ASCII zeros to total length
`width`, inserting the padding after a leading sign; a string already at
least `width` long is returned unchanged.  Written on the character list so
that it evaluates inside the kernel. -/
def zfill (s : String) (width : Nat) : String :=
  match s.data with
  | [] => String.mk (List.replicate width '0')
  | c :: rest =>
    if width ≤ (c :: rest).length then s
    else if c == '-' || c == '+' then
      String.mk (c :: (List.replicate (width - (rest.length + 1)) '0' ++ rest))
    else
      String.mk (List.replicate (width - (c :: rest).length) '0' ++ (c :: rest))

/-- `step = step_min if step_min == step_max else random.randint(step_min,
step_max)`, with the value returned by `random.randint` passed in as
`draw`. -/
def computeStep (row : SeqRow) (draw : Int) : Int :=
  if row.step_min = row.step_max then row.step_min else draw

/-- The default of the `datetime_format` keyword argument. -/
def defaultDatetimeFormat : String := "%y%m%d%H%M"

/-- `generate_sequence_id(db, seq_key, *, with_prefix, with_datetime,
datetime_format)`.  `draw` is the value `random.randint(step_min, step_max)`
would return, and `strftime fmt` is the string `datetime.now().strftime(fmt)`
would render.  Mirrors the source statement by statement: locked select,
not-found check, step computation, update, then optional formatting. -/
def generate_sequence_id (db : Db) (key : String)
    (withPfx : Bool) (withDatetime : Bool) (datetimeFormat : String)
    (draw : Int) (strftime : String → String) :
    Except SeqError SeqResult × Db :=
  let db1 := db.exec (.selectLock key) db.store
  match lookupRow db1.store key with
  | none => (.error (.notFound key), db1)
  | some row =>
    let step := computeStep row draw
    let new_value := row.current_value + step
    let db2 := db1.exec (.update key new_value) (updateValue db1.store key new_value)
    if !withPfx && !withDatetime then
      (.ok (.int new_value), db2)
    else
      let parts : List String := []
      let parts := if withPfx && truthyPfx row.pfx then parts ++ [row.pfx.getD ""] else parts
      let parts := if withDatetime then parts ++ [strftime datetimeFormat] else parts
      let parts := parts ++ [zfill (toString new_value) 6]
      (.ok (.str (String.join parts)), db2)

/-- `SEQ_INIT_CONFIG`, looked up by the string key (the `str`-enum members
compare and hash as their values).  The `USER_ID` starting value is
`random.randint(1_000_000, 1_001_000)`, evaluated once at import time and
passed in here as `userSeed`. -/
def SEQ_INIT_CONFIG (userSeed : Int) (key : String) :
    Option (Int × Int × Int × Option String × Option String) :=
  if key = "user_id" then some (userSeed, 1, 20, none, some "用户ID")
  else if key = "order_no" then some (1, 1, 1, some "ORD", some "充值订单号")
  else none

/-- `init_sequence`, with an explicit interference point.  The source awaits
the presence check and then awaits the insert; between the two statements
other sessions may commit rows, which `mid` applies to the table.  The
insert's duplicate-key rejection is not caught anywhere in the source, so an
`alreadyExists` from `insertRow` propagates as the function's error. -/
def init_sequence_interleaved (db : Db) (key : String)
    (current_value step_min step_max : Int)
    (pfx description : Option String)
    (userSeed : Int) (mid : Store → Store) :
    Except SeqError Unit × Db :=
  let db1 := db.exec (.select key) db.store
  if (lookupRow db1.store key).isSome then (.ok (), db1)
  else
    let db1 := { db1 with store := mid db1.store }
    let (cv, smin, smax, p, d) :=
      match SEQ_INIT_CONFIG userSeed key with
      | some cfg => cfg
      | none => (current_value, step_min, step_max, pfx, description)
    let row : SeqRow := ⟨cv, smin, smax, p, d⟩
    match insertRow db1.store key row with
    | .error e => (.error e, db1)
    | .ok s2 =>
      let db2 := db1.exec (.insert key row) s2
      let db3 := db2.exec .commit db2.store
      (.ok (), db3)

/-- `init_sequence` as written: the single-session run, with no interference
between the presence check and the insert. -/
def init_sequence (db : Db) (key : String)
    (current_value step_min step_max : Int)
    (pfx description : Option String) (userSeed : Int) :
    Except SeqError Unit × Db :=
  init_sequence_interleaved db key current_value step_min step_max
    pfx description userSeed id

/-! ### Basic lemmas about the store operations -/

theorem lookup_updateValue_self (s : Store) (key : String) (v : Int) :
    lookupRow (updateValue s key v) key
      = (lookupRow s key).map (fun r => { r with current_value := v }) := by
  induction s with
  | nil => rfl
  | cons kr rest ih =>
    obtain ⟨k, r⟩ := kr
    by_cases hk : k = key
    · simp only [updateValue, if_pos hk, lookupRow]
      rfl
    · simp only [updateValue, if_neg hk, lookupRow]
      exact ih

theorem one_le_computeStep (row : SeqRow) (draw : Int)
    (hmin : 1 ≤ row.step_min) (hd : row.step_min ≤ draw) :
    1 ≤ computeStep row draw := by
  unfold computeStep
  split <;> omega

theorem generate_raw_eq (db : Db) (key : String) (fmt : String) (draw : Int)
    (st : String → String) (row : SeqRow)
    (h : lookupRow db.store key = some row) :
    generate_sequence_id db key false false fmt draw st =
      (.ok (.int (row.current_value + computeStep row draw)),
       { store := updateValue db.store key (row.current_value + computeStep row draw),
         log := db.log ++ [.selectLock key,
                           .update key (row.current_value + computeStep row draw)] }) := by
  unfold generate_sequence_id
  simp [Db.exec, h]

theorem generate_fmt_eq (db : Db) (key : String) (wp wd : Bool) (fmt : String)
    (draw : Int) (st : String → String) (row : SeqRow)
    (h : lookupRow db.store key = some row)
    (hopt : (!wp && !wd) = false) :
    generate_sequence_id db key wp wd fmt draw st =
      (.ok (.str ((if wp && truthyPfx row.pfx then row.pfx.getD "" else "")
          ++ ((if wd then st fmt else "")
          ++ zfill (toString (row.current_value + computeStep row draw)) 6))),
       { store := updateValue db.store key (row.current_value + computeStep row draw),
         log := db.log ++ [.selectLock key,
                           .update key (row.current_value + computeStep row draw)] }) := by
  unfold generate_sequence_id
  cases wp <;> cases wd
  · simp at hopt
  · simp [Db.exec, h, String.join]
  · by_cases hp : truthyPfx row.pfx = true <;>
      simp [Db.exec, h, hp, String.join]
  · by_cases hp : truthyPfx row.pfx = true
    · simp [Db.exec, h, hp, String.join]
      apply String.ext
      simp
    · simp [Db.exec, h, hp, String.join]

theorem init_noop_eq (db : Db) (key : String) (cv smin smax : Int)
    (p d : Option String) (seed : Int) (row : SeqRow)
    (h : lookupRow db.store key = some row) :
    init_sequence db key cv smin smax p d seed
      = (.ok (), { store := db.store, log := db.log ++ [.select key] }) := by
  unfold init_sequence init_sequence_interleaved
  simp [Db.exec, h]

theorem init_insert_eq_known (db : Db) (key : String) (cv smin smax : Int)
    (p d : Option String) (seed : Int) (a b c : Int) (dd e : Option String)
    (h : lookupRow db.store key = none)
    (hcfg : SEQ_INIT_CONFIG seed key = some (a, b, c, dd, e)) :
    init_sequence db key cv smin smax p d seed
      = (.ok (), { store := db.store ++ [(key, ⟨a, b, c, dd, e⟩)],
                   log := db.log ++ [.select key, .insert key ⟨a, b, c, dd, e⟩,
                                     .commit] }) := by
  unfold init_sequence init_sequence_interleaved
  simp [Db.exec, h, hcfg, insertRow]

theorem init_insert_eq_unknown (db : Db) (key : String) (cv smin smax : Int)
    (p d : Option String) (seed : Int)
    (h : lookupRow db.store key = none)
    (hcfg : SEQ_INIT_CONFIG seed key = none) :
    init_sequence db key cv smin smax p d seed
      = (.ok (), { store := db.store ++ [(key, ⟨cv, smin, smax, p, d⟩)],
                   log := db.log ++ [.select key, .insert key ⟨cv, smin, smax, p, d⟩,
                                     .commit] }) := by
  unfold init_sequence init_sequence_interleaved
  simp [Db.exec, h, hcfg, insertRow]

/-! ### Exclusive-lock protocol for concurrent allocations

Modelled from the spec: the row-level `SELECT ... FOR UPDATE` lock is
provided by the database engine, not by code in this repository.  The spec
describes it as an exclusive per-key lock held from the locked read until
the committing write: at most one allocation per key is in flight, and the
lock is released only when the holder's write commits.  Each of `n`
concurrent callers therefore performs two atomic transitions: acquire the
lock and snapshot `current_value`, then write `snapshot + step` and release.
`stepOf i` is caller `i`'s step (drawn once per call). -/

structure LockState (n : Nat) where
  cv : Int
  lock : Option (Fin n)
  snap : Fin n → Option Int
  ret : Fin n → Option Int

/-- One transition of the lock protocol. -/
inductive LockStep (n : Nat) (stepOf : Fin n → Int) :
    LockState n → LockState n → Prop where
  | acquire (s : LockState n) (i : Fin n)
      (hl : s.lock = none) (hs : s.snap i = none) :
      LockStep n stepOf s
        { cv := s.cv, lock := some i,
          snap := Function.update s.snap i (some s.cv), ret := s.ret }
  | write (s : LockState n) (i : Fin n) (v : Int)
      (hl : s.lock = some i) (hs : s.snap i = some v) :
      LockStep n stepOf s
        { cv := v + stepOf i, lock := none, snap := s.snap,
          ret := Function.update s.ret i (some (v + stepOf i)) }

/-- Initial state: counter at `c0`, lock free, no caller has run. -/
def initLock (n : Nat) (c0 : Int) : LockState n :=
  { cv := c0, lock := none, snap := fun _ => none, ret := fun _ => none }

/-- Inductive invariant of the lock protocol. -/
structure LockInv (n : Nat) (stepOf : Fin n → Int) (s : LockState n) : Prop where
  ret_le : ∀ i r, s.ret i = some r → r ≤ s.cv
  ret_snap : ∀ i r, s.ret i = some r → ∃ v, s.snap i = some v ∧ r = v + stepOf i
  holder : ∀ i, s.lock = some i → s.snap i = some s.cv ∧ s.ret i = none
  active : ∀ i v, s.snap i = some v → s.ret i = none → s.lock = some i
  ret_distinct : ∀ i j ri rj, i ≠ j → s.ret i = some ri → s.ret j = some rj → ri ≠ rj
  snap_distinct : ∀ i j vi vj, i ≠ j → s.snap i = some vi → s.snap j = some vj → vi ≠ vj

theorem lockInv_init (n : Nat) (stepOf : Fin n → Int) (c0 : Int) :
    LockInv n stepOf (initLock n c0) := by
  constructor <;> intro i <;> simp [initLock]

theorem lockInv_step (n : Nat) (stepOf : Fin n → Int)
    (hstep : ∀ i, 1 ≤ stepOf i) (s t : LockState n)
    (hinv : LockInv n stepOf s) (h : LockStep n stepOf s t) :
    LockInv n stepOf t := by
  cases h with
  | acquire i hl hs =>
    have hretI : s.ret i = none := by
      rcases hri : s.ret i with _ | r
      · rfl
      · rcases hinv.ret_snap i r hri with ⟨v, hv, _⟩
        rw [hs] at hv
        cases hv
    constructor
    · intro j r hr
      dsimp only at hr ⊢
      exact hinv.ret_le j r hr
    · intro j r hr
      dsimp only at hr ⊢
      by_cases hij : j = i
      · subst hij
        rw [hretI] at hr
        cases hr
      · rw [Function.update_noteq hij]
        exact hinv.ret_snap j r hr
    · intro j hj
      dsimp only at hj ⊢
      cases hj
      exact ⟨Function.update_same i (some s.cv) s.snap, hretI⟩
    · intro j v hsj hrj
      dsimp only at hsj hrj ⊢
      by_cases hij : j = i
      · subst hij; rfl
      · exfalso
        rw [Function.update_noteq hij] at hsj
        have := hinv.active j v hsj hrj
        rw [hl] at this
        cases this
    · intro j k rj rk hjk hrj hrk
      dsimp only at hrj hrk
      exact hinv.ret_distinct j k rj rk hjk hrj hrk
    · intro j k vj vk hjk hsj hsk
      dsimp only at hsj hsk
      by_cases hji : j = i
      · subst hji
        rw [Function.update_same] at hsj
        have hki : k ≠ j := fun he => hjk he.symm
        rw [Function.update_noteq hki] at hsk
        have hrk : ∃ r, s.ret k = some r := by
          rcases hrk : s.ret k with _ | r
          · have := hinv.active k vk hsk hrk
            rw [hl] at this
            cases this
          · exact ⟨r, rfl⟩
        rcases hrk with ⟨r, hrk⟩
        rcases hinv.ret_snap k r hrk with ⟨w, hw, hrw⟩
        rw [hsk] at hw
        cases hw
        have h1 := hinv.ret_le k r hrk
        have h2 := hstep k
        cases hsj
        omega
      · by_cases hki : k = i
        · subst hki
          rw [Function.update_same] at hsk
          rw [Function.update_noteq hji] at hsj
          have hrj : ∃ r, s.ret j = some r := by
            rcases hrj : s.ret j with _ | r
            · have := hinv.active j vj hsj hrj
              rw [hl] at this
              cases this
            · exact ⟨r, rfl⟩
          rcases hrj with ⟨r, hrj⟩
          rcases hinv.ret_snap j r hrj with ⟨w, hw, hrw⟩
          rw [hsj] at hw
          cases hw
          have h1 := hinv.ret_le j r hrj
          have h2 := hstep j
          cases hsk
          omega
        · rw [Function.update_noteq hji] at hsj
          rw [Function.update_noteq hki] at hsk
          exact hinv.snap_distinct j k vj vk hjk hsj hsk
  | write i v hl hs =>
    obtain ⟨hsnapI, hretI⟩ := hinv.holder i hl
    rw [hs] at hsnapI
    cases hsnapI
    constructor
    · intro j r hr
      dsimp only at hr ⊢
      by_cases hij : j = i
      · subst hij
        rw [Function.update_same] at hr
        cases hr
        omega
      · rw [Function.update_noteq hij] at hr
        have h1 := hinv.ret_le j r hr
        have h2 := hstep i
        omega
    · intro j r hr
      dsimp only at hr ⊢
      by_cases hij : j = i
      · subst hij
        rw [Function.update_same] at hr
        cases hr
        exact ⟨s.cv, hs, rfl⟩
      · rw [Function.update_noteq hij] at hr
        exact hinv.ret_snap j r hr
    · intro j hj
      dsimp only at hj
      cases hj
    · intro j w hsj hrj
      dsimp only at hsj hrj ⊢
      exfalso
      by_cases hij : j = i
      · subst hij
        rw [Function.update_same] at hrj
        cases hrj
      · rw [Function.update_noteq hij] at hrj
        have := hinv.active j w hsj hrj
        rw [hl] at this
        cases this
        exact hij rfl
    · intro j k rj rk hjk hrj hrk
      dsimp only at hrj hrk
      by_cases hji : j = i
      · subst hji
        rw [Function.update_same] at hrj
        cases hrj
        have hki : k ≠ j := fun he => hjk he.symm
        rw [Function.update_noteq hki] at hrk
        have h1 := hinv.ret_le k rk hrk
        have h2 := hstep j
        omega
      · by_cases hki : k = i
        · subst hki
          rw [Function.update_same] at hrk
          cases hrk
          rw [Function.update_noteq hji] at hrj
          have h1 := hinv.ret_le j rj hrj
          have h2 := hstep k
          omega
        · rw [Function.update_noteq hji] at hrj
          rw [Function.update_noteq hki] at hrk
          exact hinv.ret_distinct j k rj rk hjk hrj hrk
    · intro j k vj vk hjk hsj hsk
      dsimp only at hsj hsk
      exact hinv.snap_distinct j k vj vk hjk hsj hsk

/-! ### Claim theorems -/

/-- C2: in the exclusive-lock protocol the spec prescribes for
`SELECT ... FOR UPDATE`, any run in which callers' steps are at least 1 (the
row invariant `1 ≤ step_min`) gives pairwise distinct returned values to all
callers that committed, and no two callers ever hold the same
`current_value` snapshot between lock acquisition and write. -/
theorem lock_protocol_distinct (n : Nat) (stepOf : Fin n → Int) (c0 : Int)
    (hstep : ∀ i, 1 ≤ stepOf i) (s : LockState n)
    (hreach : Relation.ReflTransGen (LockStep n stepOf) (initLock n c0) s) :
    (∀ i j ri rj, i ≠ j → s.ret i = some ri → s.ret j = some rj → ri ≠ rj) ∧
    (∀ i j vi vj, i ≠ j → s.snap i = some vi → s.snap j = some vj → vi ≠ vj) := by
  have hinv : LockInv n stepOf s := by
    induction hreach with
    | refl => exact lockInv_init n stepOf c0
    | tail hab hbc ih => exact lockInv_step n stepOf hstep _ _ ih hbc
  exact ⟨hinv.ret_distinct, hinv.snap_distinct⟩

/-- Witness for C2: two callers with step 1 starting from counter 0; the
interleaving acquire₀, write₀, acquire₁, write₁ returns 1 and 2, which the
theorem shows distinct. -/
theorem lock_protocol_distinct_witness :
    ∃ s : LockState 2,
      Relation.ReflTransGen (LockStep 2 (fun _ => 1)) (initLock 2 0) s ∧
      s.ret 0 = some 1 ∧ s.ret 1 = some 2 ∧ (1 : Int) ≠ 2 := by
  refine ⟨_,
    Relation.ReflTransGen.tail (Relation.ReflTransGen.tail
      (Relation.ReflTransGen.tail (Relation.ReflTransGen.tail
        Relation.ReflTransGen.refl
        (LockStep.acquire (initLock 2 0) 0 (by decide) (by decide)))
        (LockStep.write _ 0 0 (by decide) (by decide)))
        (LockStep.acquire _ 1 (by decide) (by decide)))
        (LockStep.write _ 1 1 (by decide) (by decide)),
    ?_, ?_, ?_⟩
  · decide
  · decide
  · refine (lock_protocol_distinct 2 (fun _ => 1) 0 (fun _ => le_refl 1) _
      (Relation.ReflTransGen.tail (Relation.ReflTransGen.tail
        (Relation.ReflTransGen.tail (Relation.ReflTransGen.tail
          Relation.ReflTransGen.refl
          (LockStep.acquire (initLock 2 0) 0 (by decide) (by decide)))
          (LockStep.write _ 0 0 (by decide) (by decide)))
          (LockStep.acquire _ 1 (by decide) (by decide)))
          (LockStep.write _ 1 1 (by decide) (by decide)))).1
      0 1 1 2 (by decide) (by decide) (by decide)

/-- C1: on a row satisfying `1 ≤ step_min ≤ step_max`, every successful
`generate_sequence_id` call stores and returns `new_value = current_value +
step` with `step ≥ 1`, so `current_value` strictly increases across
successive successful allocations on the same key and the returned values
never repeat: two successive calls return `v1 < v2`, each equal to the value
stored for the key at that point. -/
theorem generate_strict_mono (db : Db) (key fmt : String)
    (draw1 draw2 : Int) (st : String → String) (row : SeqRow)
    (h : lookupRow db.store key = some row)
    (hmin : 1 ≤ row.step_min) (hmm : row.step_min ≤ row.step_max)
    (h1l : row.step_min ≤ draw1) (h1r : draw1 ≤ row.step_max)
    (h2l : row.step_min ≤ draw2) (h2r : draw2 ≤ row.step_max) :
    ∃ v1 v2 db1 db2,
      generate_sequence_id db key false false fmt draw1 st = (.ok (.int v1), db1) ∧
      generate_sequence_id db1 key false false fmt draw2 st = (.ok (.int v2), db2) ∧
      lookupRow db1.store key = some { row with current_value := v1 } ∧
      lookupRow db2.store key = some { row with current_value := v2 } ∧
      row.current_value < v1 ∧ v1 < v2 := by
  have s1pos := one_le_computeStep row draw1 hmin h1l
  have s2pos := one_le_computeStep row draw2 hmin h2l
  have e1 := generate_raw_eq db key fmt draw1 st row h
  have hv1 : lookupRow (updateValue db.store key
        (row.current_value + computeStep row draw1)) key
      = some { row with current_value := row.current_value + computeStep row draw1 } := by
    rw [lookup_updateValue_self, h]
    rfl
  have e2 := generate_raw_eq
      { store := updateValue db.store key (row.current_value + computeStep row draw1),
        log := db.log ++ [.selectLock key,
                          .update key (row.current_value + computeStep row draw1)] }
      key fmt draw2 st
      { row with current_value := row.current_value + computeStep row draw1 } hv1
  refine ⟨row.current_value + computeStep row draw1,
          row.current_value + computeStep row draw1 + computeStep row draw2,
          _, _, e1, e2, hv1, ?_, ?_, ?_⟩
  · rw [lookup_updateValue_self, hv1]
    rfl
  · omega
  · omega

/-- Witness for C1 at a concrete store: key `"k"` with
`current_value = 10, step_min = 1, step_max = 3` and draws 2 and 3. -/
theorem generate_strict_mono_witness :
    ∃ v1 v2 db1 db2,
      generate_sequence_id ⟨[("k", ⟨10, 1, 3, none, none⟩)], []⟩ "k"
          false false defaultDatetimeFormat 2 (fun _ => "") = (.ok (.int v1), db1) ∧
      generate_sequence_id db1 "k" false false defaultDatetimeFormat 3 (fun _ => "")
          = (.ok (.int v2), db2) ∧
      lookupRow db1.store "k" = some ⟨v1, 1, 3, none, none⟩ ∧
      lookupRow db2.store "k" = some ⟨v2, 1, 3, none, none⟩ ∧
      (10 : Int) < v1 ∧ v1 < v2 :=
  generate_strict_mono ⟨[("k", ⟨10, 1, 3, none, none⟩)], []⟩ "k"
    defaultDatetimeFormat 2 3 (fun _ => "") ⟨10, 1, 3, none, none⟩
    (by decide) (by decide) (by decide) (by decide) (by decide) (by decide) (by decide)

/-- C3: allocating a key with no row fails with the not-found error, and the
store is unchanged on this error path (the only statement executed is the
locked select; no update or insert happens). -/
theorem generate_notFound (db : Db) (key fmt : String) (wp wd : Bool)
    (draw : Int) (st : String → String)
    (h : lookupRow db.store key = none) :
    generate_sequence_id db key wp wd fmt draw st
      = (.error (.notFound key),
         { store := db.store, log := db.log ++ [.selectLock key] }) := by
  unfold generate_sequence_id
  simp [Db.exec, h]

/-- Witness for C3: the empty store. -/
theorem generate_notFound_witness :
    generate_sequence_id ⟨[], []⟩ "user_id" false false defaultDatetimeFormat 1
        (fun _ => "")
      = (.error (.notFound "user_id"),
         { store := [], log := [.selectLock "user_id"] }) :=
  generate_notFound ⟨[], []⟩ "user_id" defaultDatetimeFormat false false 1
    (fun _ => "") (by decide)

/-- C4: the applied step is `step_min` when `step_min = step_max`, otherwise
it is the value drawn by `random.randint(step_min, step_max)`; whenever the
draw lies in the inclusive range (as `randint` guarantees) the step lies in
`[step_min, step_max]`, and a successful allocation stores exactly
`current_value + step`. -/
theorem step_in_range (db : Db) (key fmt : String) (wp wd : Bool)
    (draw : Int) (st : String → String) (row : SeqRow)
    (h : lookupRow db.store key = some row)
    (hl : row.step_min ≤ draw) (hr : draw ≤ row.step_max) :
    (row.step_min = row.step_max → computeStep row draw = row.step_min) ∧
    (row.step_min ≠ row.step_max → computeStep row draw = draw) ∧
    row.step_min ≤ computeStep row draw ∧
    computeStep row draw ≤ row.step_max ∧
    (generate_sequence_id db key wp wd fmt draw st).2.store
      = updateValue db.store key (row.current_value + computeStep row draw) := by
  refine ⟨fun he => by simp [computeStep, he], fun he => by simp [computeStep, he],
          ?_, ?_, ?_⟩
  · unfold computeStep; split <;> omega
  · unfold computeStep; split <;> omega
  · unfold generate_sequence_id
    simp only [Db.exec, h]
    split <;> rfl

/-- Witness for C4 at a concrete randomized row (`step_min = 2`,
`step_max = 5`, draw 4). -/
theorem step_in_range_witness :
    ((2 : Int) = 7 → computeStep ⟨0, 2, 7, none, none⟩ 4 = 2) ∧
    ((2 : Int) ≠ 7 → computeStep ⟨0, 2, 7, none, none⟩ 4 = 4) ∧
    (2 : Int) ≤ computeStep ⟨0, 2, 7, none, none⟩ 4 ∧
    computeStep ⟨0, 2, 7, none, none⟩ 4 ≤ 7 ∧
    (generate_sequence_id ⟨[("k", ⟨0, 2, 7, none, none⟩)], []⟩ "k" false false
        defaultDatetimeFormat 4 (fun _ => "")).2.store
      = updateValue [("k", ⟨0, 2, 7, none, none⟩)] "k"
          ((0 : Int) + computeStep ⟨0, 2, 7, none, none⟩ 4) :=
  step_in_range ⟨[("k", ⟨0, 2, 7, none, none⟩)], []⟩ "k" defaultDatetimeFormat
    false false 4 (fun _ => "") ⟨0, 2, 7, none, none⟩ (by decide) (by decide) (by decide)

/-- C6: with both formatting options off, the call returns the bare integer
`new_value` (constructor `SeqResult.int`, not a string), whatever the
magnitude of the value. -/
theorem generate_raw_returns_int (db : Db) (key fmt : String)
    (draw : Int) (st : String → String) (row : SeqRow)
    (h : lookupRow db.store key = some row) :
    (generate_sequence_id db key false false fmt draw st).1
      = .ok (.int (row.current_value + computeStep row draw)) := by
  rw [generate_raw_eq db key fmt draw st row h]

/-- Witness for C6: a counter reaching 1234567 still comes back as the raw
integer, unpadded. -/
theorem generate_raw_returns_int_witness :
    (generate_sequence_id ⟨[("k", ⟨1234566, 1, 1, none, none⟩)], []⟩ "k"
        false false defaultDatetimeFormat 1 (fun _ => "")).1
      = .ok (.int 1234567) :=
  generate_raw_returns_int ⟨[("k", ⟨1234566, 1, 1, none, none⟩)], []⟩ "k"
    defaultDatetimeFormat 1 (fun _ => "") ⟨1234566, 1, 1, none, none⟩ (by decide)

/-- C5: with at least one formatting option on, the call returns the string
built, in order, from the configured non-empty prefix (only when
`with_prefix` is set), the rendered timestamp (only when `with_datetime` is
set), and the new value zero-padded to a minimum width of 6 digits; the
stored numeric value is exactly the one the unformatted call would store. -/
theorem generate_formatted (db : Db) (key fmt : String) (wp wd : Bool)
    (draw : Int) (st : String → String) (row : SeqRow)
    (h : lookupRow db.store key = some row)
    (hopt : wp = true ∨ wd = true) :
    generate_sequence_id db key wp wd fmt draw st
      = (.ok (.str ((if wp && truthyPfx row.pfx then row.pfx.getD "" else "")
            ++ ((if wd then st fmt else "")
            ++ zfill (toString (row.current_value + computeStep row draw)) 6))),
         { store := updateValue db.store key (row.current_value + computeStep row draw),
           log := db.log ++ [.selectLock key,
                             .update key (row.current_value + computeStep row draw)] }) ∧
    (generate_sequence_id db key wp wd fmt draw st).2.store
      = (generate_sequence_id db key false false fmt draw st).2.store := by
  have hb : (!wp && !wd) = false := by
    rcases hopt with h1 | h1 <;> subst h1 <;> simp
  have e := generate_fmt_eq db key wp wd fmt draw st row h hb
  refine ⟨e, ?_⟩
  rw [e, generate_raw_eq db key fmt draw st row h]

/-- Witness for C5: the spec's example — prefix `"ORD"`, `current_value = 0`,
fixed step 1, clock rendering `"2312231530"` — yields
`"ORD2312231530000001"`. -/
theorem generate_formatted_witness :
    (generate_sequence_id ⟨[("order_no", ⟨0, 1, 1, some "ORD", some "o"⟩)], []⟩
        "order_no" true true defaultDatetimeFormat 1 (fun _ => "2312231530")).1
      = .ok (.str "ORD2312231530000001") ∧
    (generate_sequence_id ⟨[("order_no", ⟨0, 1, 1, some "ORD", some "o"⟩)], []⟩
        "order_no" true true defaultDatetimeFormat 1 (fun _ => "2312231530")).2.store
      = (generate_sequence_id ⟨[("order_no", ⟨0, 1, 1, some "ORD", some "o"⟩)], []⟩
          "order_no" false false defaultDatetimeFormat 1 (fun _ => "2312231530")).2.store := by
  have h := generate_formatted ⟨[("order_no", ⟨0, 1, 1, some "ORD", some "o"⟩)], []⟩
    "order_no" defaultDatetimeFormat true true 1 (fun _ => "2312231530")
    ⟨0, 1, 1, some "ORD", some "o"⟩ (by decide) (Or.inl rfl)
  refine ⟨?_, h.2⟩
  rw [h.1]
  decide

/-- C7: when a row for the key already exists, `init_sequence` is a no-op
for any caller-supplied defaults: the store (hence the stored row) is
unchanged, and the existing row still holds afterwards. -/
theorem init_existing_noop (db : Db) (key : String) (cv smin smax : Int)
    (p d : Option String) (seed : Int) (row : SeqRow)
    (h : lookupRow db.store key = some row) :
    init_sequence db key cv smin smax p d seed
      = (.ok (), { store := db.store, log := db.log ++ [.select key] }) ∧
    lookupRow (init_sequence db key cv smin smax p d seed).2.store key = some row := by
  have e := init_noop_eq db key cv smin smax p d seed row h
  exact ⟨e, by rw [e]; exact h⟩

/-- Witness for C7: re-initializing an existing `"k"` row with completely
different defaults leaves the store untouched. -/
theorem init_existing_noop_witness :
    init_sequence ⟨[("k", ⟨42, 1, 5, some "P", none⟩)], []⟩ "k" 777 9 9
        (some "ZZZ") (some "other") 0
      = (.ok (), { store := [("k", ⟨42, 1, 5, some "P", none⟩)],
                   log := [.select "k"] }) ∧
    lookupRow (init_sequence ⟨[("k", ⟨42, 1, 5, some "P", none⟩)], []⟩ "k" 777 9 9
        (some "ZZZ") (some "other") 0).2.store "k" = some ⟨42, 1, 5, some "P", none⟩ :=
  init_existing_noop ⟨[("k", ⟨42, 1, 5, some "P", none⟩)], []⟩ "k" 777 9 9
    (some "ZZZ") (some "other") 0 ⟨42, 1, 5, some "P", none⟩ (by decide)

/-- C8: on a missing row, the inserted row carries exactly the static
`SEQ_INIT_CONFIG` values when the key is a known one, overriding the
caller-supplied defaults; for an unknown key the caller-supplied defaults are
inserted. -/
theorem init_insert_config (db : Db) (key : String) (cv smin smax : Int)
    (p d : Option String) (seed : Int)
    (h : lookupRow db.store key = none) :
    (∀ a b c : Int, ∀ dd e : Option String,
        SEQ_INIT_CONFIG seed key = some (a, b, c, dd, e) →
        init_sequence db key cv smin smax p d seed
          = (.ok (), { store := db.store ++ [(key, ⟨a, b, c, dd, e⟩)],
                       log := db.log ++ [.select key, .insert key ⟨a, b, c, dd, e⟩,
                                         .commit] })) ∧
    (SEQ_INIT_CONFIG seed key = none →
        init_sequence db key cv smin smax p d seed
          = (.ok (), { store := db.store ++ [(key, ⟨cv, smin, smax, p, d⟩)],
                       log := db.log ++ [.select key, .insert key ⟨cv, smin, smax, p, d⟩,
                                         .commit] })) :=
  ⟨fun a b c dd e hcfg => init_insert_eq_known db key cv smin smax p d seed a b c dd e h hcfg,
   fun hcfg => init_insert_eq_unknown db key cv smin smax p d seed h hcfg⟩

/-- Witness for C8: initializing `"order_no"` with arbitrary caller defaults
yields the documented static configuration, not the caller's values. -/
theorem init_insert_config_witness :
    init_sequence ⟨[], []⟩ "order_no" 999 5 9 (some "XX") (some "yy") 0
      = (.ok (), { store := [("order_no", ⟨1, 1, 1, some "ORD", some "充值订单号"⟩)],
                   log := [.select "order_no",
                           .insert "order_no" ⟨1, 1, 1, some "ORD", some "充值订单号"⟩,
                           .commit] }) :=
  (init_insert_config ⟨[], []⟩ "order_no" 999 5 9 (some "XX") (some "yy") 0
      (by decide)).1 1 1 1 (some "ORD") (some "充值订单号") (by decide)

/-- C9 counterexample: run the statements of `init_sequence` with a racing
initializer committing the row between the presence check and the insert.
The duplicate-insert rejection is NOT swallowed: the call surfaces the
`alreadyExists` error instead of completing successfully. -/
theorem init_race_not_swallowed_cex :
    (init_sequence_interleaved ⟨[], []⟩ "k" 1 1 1 none none 0
        (fun s => s ++ [("k", ⟨1, 1, 1, none, none⟩)])).1
      = .error (.alreadyExists "k") ∧
    (init_sequence_interleaved ⟨[], []⟩ "k" 1 1 1 none none 0
        (fun s => s ++ [("k", ⟨1, 1, 1, none, none⟩)])).1 ≠ .ok () := by
  decide

/-- C9 amended: when the insert attempt is rejected because a racing
initializer created the row after the presence check, `init_sequence`
propagates the `alreadyExists` error to the caller — the source has no
handler around the insert, so the error is not swallowed and the call does
not complete as a no-op. -/
theorem init_race_propagates (db : Db) (key : String) (cv smin smax : Int)
    (p d : Option String) (seed : Int) (mid : Store → Store)
    (h : lookupRow db.store key = none)
    (hmid : (lookupRow (mid db.store) key).isSome = true) :
    (init_sequence_interleaved db key cv smin smax p d seed mid).1
      = .error (.alreadyExists key) := by
  unfold init_sequence_interleaved
  rcases hcfg : SEQ_INIT_CONFIG seed key with _ | ⟨a, b, c, dd, e⟩ <;>
    simp [Db.exec, h, hcfg, insertRow, hmid]

/-- Witness for C9's amended theorem, at a different concrete key. -/
theorem init_race_propagates_witness :
    (init_sequence_interleaved ⟨[], []⟩ "j" 5 1 2 none none 0
        (fun s => s ++ [("j", ⟨9, 1, 1, none, none⟩)])).1
      = .error (.alreadyExists "j") :=
  init_race_propagates ⟨[], []⟩ "j" 5 1 2 none none 0
    (fun s => s ++ [("j", ⟨9, 1, 1, none, none⟩)]) (by decide) (by decide)

/-- C10: `init_sequence` commits the caller's session immediately after
inserting a new row, returns without committing when the row already exists,
and `generate_sequence_id` never commits or rolls back: its log gains only
statements other than `commit`. -/
theorem commit_discipline (db : Db) (key fmt : String) (cv smin smax : Int)
    (p d : Option String) (seed : Int) (wp wd : Bool) (draw : Int)
    (st : String → String) :
    (lookupRow db.store key = none →
      ∃ r, (init_sequence db key cv smin smax p d seed).2.log
        = db.log ++ [.select key, .insert key r, .commit]) ∧
    (∀ row, lookupRow db.store key = some row →
      (init_sequence db key cv smin smax p d seed).2.log = db.log ++ [.select key]) ∧
    (∃ l, (generate_sequence_id db key wp wd fmt draw st).2.log = db.log ++ l ∧
      DbAction.commit ∉ l) := by
  refine ⟨?_, ?_, ?_⟩
  · intro h
    rcases hcfg : SEQ_INIT_CONFIG seed key with _ | ⟨a, b, c, dd, e⟩
    · exact ⟨_, by rw [init_insert_eq_unknown db key cv smin smax p d seed h hcfg]⟩
    · exact ⟨_, by rw [init_insert_eq_known db key cv smin smax p d seed a b c dd e h hcfg]⟩
  · intro row h
    rw [init_noop_eq db key cv smin smax p d seed row h]
  · rcases hl : lookupRow db.store key with _ | row
    · refine ⟨[.selectLock key], ?_, by simp⟩
      unfold generate_sequence_id
      simp [Db.exec, hl]
    · refine ⟨[.selectLock key,
               .update key (row.current_value + computeStep row draw)], ?_, by simp⟩
      by_cases hb : (!wp && !wd) = true
      · obtain ⟨hwp, hwd⟩ : wp = false ∧ wd = false := by
          cases wp <;> cases wd <;> simp_all
        subst hwp
        subst hwd
        rw [generate_raw_eq db key fmt draw st row hl]
      · rw [generate_fmt_eq db key wp wd fmt draw st row hl (by simpa using hb)]

/-- Witness for C10: a fresh key is inserted and committed; an existing key
returns with only the select logged; an allocation logs no commit. -/
theorem commit_discipline_witness :
    (∃ r, (init_sequence ⟨[], []⟩ "order_no" 9 9 9 none none 0).2.log
        = [] ++ [.select "order_no", .insert "order_no" r, .commit]) ∧
    ((init_sequence ⟨[("q", ⟨0, 1, 1, none, none⟩)], []⟩ "q" 9 9 9 none none 0).2.log
        = [] ++ [.select "q"]) ∧
    (∃ l, (generate_sequence_id ⟨[("q", ⟨0, 1, 1, none, none⟩)], []⟩ "q" false false
        defaultDatetimeFormat 1 (fun _ => "")).2.log = [] ++ l ∧
      DbAction.commit ∉ l) :=
  ⟨(commit_discipline ⟨[], []⟩ "order_no" defaultDatetimeFormat 9 9 9 none none 0
      false false 1 (fun _ => "")).1 (by decide),
   (commit_discipline ⟨[("q", ⟨0, 1, 1, none, none⟩)], []⟩ "q" defaultDatetimeFormat
      9 9 9 none none 0 false false 1 (fun _ => "")).2.1 ⟨0, 1, 1, none, none⟩ (by decide),
   (commit_discipline ⟨[("q", ⟨0, 1, 1, none, none⟩)], []⟩ "q" defaultDatetimeFormat
      9 9 9 none none 0 false false 1 (fun _ => "")).2.2⟩

end SeqAlloc
